import Mathlib

/-!
Formal model of the `pulse` blood-pressure logger (`src/app/main.py`).

The Python program stores readings as newline-delimited JSON records and
exposes handlers to add, list, edit and chart them.  This file embeds the
data model and the pure core of each operation as executable Lean
definitions, translated clause by clause from the source, and proves the
behavioural properties of the grouping, validation, aggregation, read and
edit logic.

Modelling conventions:
* Python `int` values are `Int`; Python lists are `List`.
* A parsed `datetime` (the result of `parse_iso` on a stored `"t"` string)
  is a `Timestamp` record of local calendar fields plus the UTC offset in
  minutes.  Comparison of aware datetimes in Python compares instants, which
  `instantSecs` computes.
* Python's `list.sort` / `sorted` are stable sorts; `List.insertionSort`
  with the same key relation is stable, hence extensionally the same list.
* Fallible Python code (raising `ValueError` / `IndexError`) is embedded in
  `Except`.
-/

namespace Pulse

/-- Constant `SYS_MIN` from `main.py` line 27. -/
def SYS_MIN : Int := 70

/-- Constant `SYS_MAX` from `main.py` line 27. -/
def SYS_MAX : Int := 250

/-- Constant `DIA_MIN` from `main.py` line 28. -/
def DIA_MIN : Int := 40

/-- Constant `DIA_MAX` from `main.py` line 28. -/
def DIA_MAX : Int := 150

/-- Constant `PUL_MIN` from `main.py` line 29. -/
def PUL_MIN : Int := 30

/-- Constant `PUL_MAX` from `main.py` line 29. -/
def PUL_MAX : Int := 220

/-- A parsed aware `datetime.datetime`: local calendar fields plus the UTC
offset in minutes (e.g. `+08:00` is `offMin = 480`).  This is what
`parse_iso` yields from a stored ISO-8601 `"t"` string. -/
structure Timestamp where
  year : Nat
  month : Nat
  day : Nat
  hour : Nat
  minute : Nat
  second : Nat
  offMin : Int
deriving DecidableEq, Repr

/-- Gregorian leap-year rule, as in Python's `datetime` calendar. -/
def isLeapYear (y : Nat) : Bool :=
  y % 4 == 0 && (y % 100 != 0 || y % 400 == 0)

/-- Days in the months before month `m` (1-based) of a non-leap year. -/
def cumDaysBefore (m : Nat) : Nat :=
  [0, 31, 59, 90, 120, 151, 181, 212, 243, 273, 304, 334].getD (m - 1) 0

/-- Day count of civil date `(y, m, d)` from 0001-01-01 (day 0), the
proleptic Gregorian calendar used by `datetime.date.toordinal` (minus 1). -/
def dayNumber (y m d : Nat) : Nat :=
  365 * (y - 1) + (y - 1) / 4 - (y - 1) / 100 + (y - 1) / 400
    + cumDaysBefore m + (if isLeapYear y && decide (m > 2) then 1 else 0) + (d - 1)

/-- The instant a `Timestamp` denotes, in seconds from 0001-01-01T00:00:00Z.
Python compares aware datetimes by exactly this quantity (local clock
minus UTC offset). -/
def instantSecs (t : Timestamp) : Int :=
  (dayNumber t.year t.month t.day : Int) * 86400
    + (t.hour : Int) * 3600 + (t.minute : Int) * 60 + (t.second : Int)
    - t.offMin * 60

/-- One stored reading: the JSON object written by `append_entry`.  The
`"t"` string is kept in parsed form (`t : Timestamp`); rendering it back is
`tsRender` below. -/
structure Entry where
  t : Timestamp
  sys : Int
  dia : Int
  pulse : Int
  raw : String
  local_tz : String
deriving DecidableEq, Repr

/-- Order on entries used by `read_all` (line 86) and by the per-day sort in
`group_measurements_by_date` (line 105): Python compares the parsed aware
datetimes, i.e. the instants. -/
def entryLe (a b : Entry) : Prop := instantSecs a.t ≤ instantSecs b.t

instance : DecidableRel entryLe := fun a b => Int.decLe _ _

instance : IsTotal Entry entryLe := ⟨fun a b => Int.le_total _ _⟩

instance : IsTrans Entry entryLe := ⟨fun _ _ _ h1 h2 => Int.le_trans h1 h2⟩

instance : IsRefl Entry entryLe := ⟨fun _ => Int.le_refl _⟩

/-- Calendar-date key of a bucket: the `(year, month, day)` triple.  The
Python code keys its dict on `dt.date().isoformat()`, a zero-padded
`YYYY-MM-DD` string; equality and lexicographic order of those strings
coincide with equality and lexicographic order of the triples. -/
def DateKey := Nat × Nat × Nat
deriving DecidableEq, Repr

/-- Local-clock calendar date of a timestamp — `dt.date()` with no timezone
conversion (line 97). -/
def dateKey (t : Timestamp) : DateKey := (t.year, t.month, t.day)

/-- Lexicographic order on date keys: the order `sorted()` gives the
zero-padded `YYYY-MM-DD` strings (line 100). -/
def dateLe (a b : DateKey) : Prop :=
  a.1 < b.1 ∨ (a.1 = b.1 ∧ (a.2.1 < b.2.1 ∨ (a.2.1 = b.2.1 ∧ a.2.2 ≤ b.2.2)))

instance : DecidableRel dateLe := fun a b => by
  unfold dateLe; infer_instance

instance : IsTotal DateKey dateLe :=
  ⟨by
    rintro ⟨a1, a2, a3⟩ ⟨b1, b2, b3⟩
    unfold dateLe
    rcases Nat.lt_trichotomy a1 b1 with h | h | h
    · exact Or.inl (Or.inl h)
    · rcases Nat.lt_trichotomy a2 b2 with h2 | h2 | h2
      · exact Or.inl (Or.inr ⟨h, Or.inl h2⟩)
      · rcases Nat.le_total a3 b3 with h3 | h3
        · exact Or.inl (Or.inr ⟨h, Or.inr ⟨h2, h3⟩⟩)
        · exact Or.inr (Or.inr ⟨h.symm, Or.inr ⟨h2.symm, h3⟩⟩)
      · exact Or.inr (Or.inr ⟨h.symm, Or.inl h2⟩)
    · exact Or.inr (Or.inl h)⟩

instance : IsTrans DateKey dateLe :=
  ⟨by
    rintro ⟨a1, a2, a3⟩ ⟨b1, b2, b3⟩ ⟨c1, c2, c3⟩ h1 h2
    unfold dateLe at *
    rcases h1 with h1 | ⟨e1, h1⟩
    · rcases h2 with h2 | ⟨e2, _⟩
      · exact Or.inl (Nat.lt_trans h1 h2)
      · exact Or.inl (e2 ▸ h1)
    · rcases h2 with h2 | ⟨e2, h2⟩
      · exact Or.inl (e1 ▸ h2)
      · refine Or.inr ⟨e1.trans e2, ?_⟩
        rcases h1 with h1 | ⟨f1, h1⟩
        · rcases h2 with h2 | ⟨f2, _⟩
          · exact Or.inl (Nat.lt_trans h1 h2)
          · exact Or.inl (f2 ▸ h1)
        · rcases h2 with h2 | ⟨f2, h2⟩
          · exact Or.inl (f1 ▸ h2)
          · exact Or.inr ⟨f1.trans f2, Nat.le_trans h1 h2⟩⟩

/-- Function `validate_values` (`main.py` lines 138-146): four checks in
order, each raising a `ValueError` with a message naming the failed bound;
returns normally otherwise. -/
def validate_values (sys_bp dia_bp pulse : Int) : Except String Unit :=
  if ¬ (SYS_MIN ≤ sys_bp ∧ sys_bp ≤ SYS_MAX) then
    Except.error ("Systolic out of range " ++ toString SYS_MIN ++ "-" ++ toString SYS_MAX)
  else if ¬ (DIA_MIN ≤ dia_bp ∧ dia_bp ≤ DIA_MAX) then
    Except.error ("Diastolic out of range " ++ toString DIA_MIN ++ "-" ++ toString DIA_MAX)
  else if ¬ (PUL_MIN ≤ pulse ∧ pulse ≤ PUL_MAX) then
    Except.error ("Pulse out of range " ++ toString PUL_MIN ++ "-" ++ toString PUL_MAX)
  else if dia_bp > sys_bp then
    Except.error ("Diastolic cannot be greater than systolic")
  else
    Except.ok ()

/-- Python list indexing `l[i]`: negative indices count from the end, and an
index out of range raises `IndexError` (here `none`). -/
def pyGet (l : List Int) (i : Int) : Option Int :=
  if i < 0 then
    if i + l.length < 0 then none else l.get? (i + l.length).toNat
  else l.get? i.toNat

/-- Python `round((a + b) / 2)` for integers with `s = a + b`: the quotient
is exact (`s / 2`) when `s` is even, and otherwise lies exactly halfway, so
`round` ties to the even integer (banker's rounding).  The float division is
exact for all values the program handles. -/
def pyRound2 (s : Int) : Int :=
  if s % 2 = 0 then s / 2
  else if (s / 2) % 2 = 0 then s / 2 else s / 2 + 1

/-- Function `compute_median_avg` (`main.py` lines 149-155).  `sorted(vals)`
is the stable sort of the values; on an even length the two middle values
are averaged with Python `round`, on an odd length the middle value is
taken.  On the empty list the index `n // 2 - 1 = -1` wraps to `-1 + 0 < 0`
and raises `IndexError`, modelled by `none`. -/
def compute_median_avg (vals : List Int) : Option Int :=
  let sorted_vals := List.insertionSort (fun a b : Int => a ≤ b) vals
  let n := sorted_vals.length
  if n % 2 = 0 then
    match pyGet sorted_vals ((n : Int) / 2 - 1), pyGet sorted_vals ((n : Int) / 2) with
    | some a, some b => some (pyRound2 (a + b))
    | _, _ => none
  else
    pyGet sorted_vals ((n : Int) / 2)

/-- One step of the `defaultdict` loop (lines 93-98): append `e` to the
bucket of key `k`, creating the bucket at the end on first use (Python
dicts keep key insertion order). -/
def addToGroup (g : List (DateKey × List Entry)) (k : DateKey) (e : Entry) :
    List (DateKey × List Entry) :=
  match g with
  | [] => [(k, [e])]
  | (k', l) :: rest =>
    if k' = k then (k', l ++ [e]) :: rest else (k', l) :: addToGroup rest k e

/-- The `grouped` dict of `group_measurements_by_date` (lines 93-98): every
entry is appended to the bucket of the local-clock calendar date of its
timestamp. -/
def groupedOf (entries : List Entry) : List (DateKey × List Entry) :=
  entries.foldl (fun g e => addToGroup g (dateKey e.t) e) []

/-- Dict lookup `grouped[date]` on the association list. -/
def groupGet (g : List (DateKey × List Entry)) (k : DateKey) : List Entry :=
  match g.find? (fun p => decide (p.1 = k)) with
  | some p => p.2
  | none => []

/-- One element of the result list of `group_measurements_by_date`
(line 110): a calendar date with its morning and evening picks. -/
structure DayGroup where
  date : DateKey
  morning : Option Entry
  evening : Option Entry
deriving DecidableEq, Repr

/-- Function `group_measurements_by_date` (`main.py` lines 90-111): bucket
the entries by local-clock date, then per date (in ascending date order)
sort the bucket by time and pick the first measurement with local hour in
`[7, 12)` as morning and the first with local hour `>= 21` as evening,
`none` when no measurement qualifies. -/
def group_measurements_by_date (entries : List Entry) : List DayGroup :=
  let grouped := groupedOf entries
  let sorted_dates := List.insertionSort dateLe (grouped.map (fun p => p.1))
  sorted_dates.map (fun date =>
    let measurements := List.insertionSort entryLe (groupGet grouped date)
    let morning_measurements :=
      measurements.filter (fun e => decide (7 ≤ e.t.hour ∧ e.t.hour < 12))
    let evening_measurements :=
      measurements.filter (fun e => decide (21 ≤ e.t.hour))
    { date := date
      morning := morning_measurements.head?
      evening := evening_measurements.head? })

/-- Python `str.strip()`: drop leading and trailing whitespace. -/
def pyStrip (s : String) : String :=
  String.mk (((s.toList.dropWhile Char.isWhitespace).reverse.dropWhile
    Char.isWhitespace).reverse)

/-- Python `str.split()` with no argument: split on runs of whitespace,
never producing empty pieces. -/
def pySplit (s : String) : List String :=
  ((s.toList.splitOnP Char.isWhitespace).filter (fun cs => !cs.isEmpty)).map
    (fun cs => String.mk cs)

/-- Nonempty all-digit character list read as a number, else `none`. -/
def digitsVal (cs : List Char) : Option Nat :=
  match cs with
  | [] => none
  | _ =>
    if cs.all Char.isDigit then
      some (cs.foldl (fun acc c => acc * 10 + (c.toNat - 48)) 0)
    else none

/-- Python `int(s)` on a whitespace-free token: an optional sign followed by
decimal digits; anything else raises `ValueError` (`none`).  (Python also
accepts digit-group underscores and non-ASCII digits; the program's tokens
are plain ASCII.) -/
def pyInt (s : String) : Option Int :=
  match s.toList with
  | '+' :: rest => (digitsVal rest).map (fun n => (n : Int))
  | '-' :: rest => (digitsVal rest).map (fun n => -(n : Int))
  | cs => (digitsVal cs).map (fun n => (n : Int))

/-- Exceptions the `/add` handler can meet inside its `try` block: the
`ValueError`s it catches (line 395) and the `IndexError` from
`compute_median_avg` on an empty list, which nothing catches. -/
inductive PyExc where
  | valueError (msg : String)
  | indexError
deriving DecidableEq, Repr

/-- Re-raise a `ValueError` carried in an `Except String`. -/
def liftVE {α : Type} : Except String α → Except PyExc α
  | .ok a => .ok a
  | .error m => .error (.valueError m)

/-- Call of `int` on a token, raising `ValueError` on a malformed literal
as Python does (the message quotes the offending token). -/
def pyIntE (s : String) : Except PyExc Int :=
  match pyInt s with
  | some n => .ok n
  | none =>
    .error (.valueError ("invalid literal for int() with base 10: \x27" ++ s ++ "\x27"))

/-- Call of `compute_median_avg`, raising `IndexError` on the empty list. -/
def medianE (l : List Int) : Except PyExc Int :=
  match compute_median_avg l with
  | some v => .ok v
  | none => .error .indexError

/-- A list comprehension `[int(tok) for tok in toks]`: left to right, the
first malformed token raises. -/
def pyIntList : List String → Except PyExc (List Int)
  | [] => .ok []
  | s :: rest =>
    match pyIntE s with
    | .error e => .error e
    | .ok n =>
      match pyIntList rest with
      | .error e => .error e
      | .ok ns => .ok (n :: ns)

/-- The per-triple validation loop of the `/add` handler (lines 366-367). -/
def validateTriples (sys_list dia_list pulse_list : List Int) : Nat → Except PyExc Unit
  | 0 => .ok ()
  | n + 1 =>
    match validateTriples sys_list dia_list pulse_list n with
    | .error e => .error e
    | .ok () =>
      liftVE (validate_values (sys_list.getD n 0) (dia_list.getD n 0) (pulse_list.getD n 0))

/-- Assignment `tz_name = local_tz or "Asia/Shanghai"` (line 381): Python `or` falls
through on the falsy values `None` and `""`. -/
def tzName (local_tz : Option String) : String :=
  match local_tz with
  | some s => if s = "" then "Asia/Shanghai" else s
  | none => "Asia/Shanghai"

/-- The form fields of the `/add` handler (lines 345-351); each defaults to
`None` when absent. -/
structure AddForm where
  line : Option String
  sys_bp : Option Int
  dia_bp : Option Int
  pulse : Option Int
  local_tz : Option String
deriving DecidableEq, Repr

/-- Python truthiness of the `line` field: a present, non-empty string. -/
def lineTruthy (line : Option String) : Bool :=
  match line with
  | some s => s ≠ ""
  | none => false

/-- The `if line:` branch of the `/add` try block (lines 355-373 and
382-390): split the line, parse `SYS DIA PULSE` triples, validate each,
aggregate component-wise with `compute_median_avg`, re-validate the
aggregate, and build the entry (`raw` keeps the submitted line).  `now` is
the value of `now_local_iso(tz_name)`. -/
def addLine (l : String) (local_tz : Option String) (now : Timestamp) :
    Except PyExc Entry :=
  let parts := pySplit (pyStrip l)
  if parts.length % 3 ≠ 0 then
    .error (.valueError ("Input must contain a multiple of 3 values (SYS DIA PULSE)"))
  else
    let num := parts.length / 3
    match pyIntList ((List.range num).map (fun i => parts.getD (i * 3) "")) with
    | .error e => .error e
    | .ok sys_list =>
      match pyIntList ((List.range num).map (fun i => parts.getD (i * 3 + 1) "")) with
      | .error e => .error e
      | .ok dia_list =>
        match pyIntList ((List.range num).map (fun i => parts.getD (i * 3 + 2) "")) with
        | .error e => .error e
        | .ok pulse_list =>
          match validateTriples sys_list dia_list pulse_list num with
          | .error e => .error e
          | .ok () =>
            match medianE sys_list with
            | .error e => .error e
            | .ok sys_v =>
              match medianE dia_list with
              | .error e => .error e
              | .ok dia_v =>
                match medianE pulse_list with
                | .error e => .error e
                | .ok pul_v =>
                  match validate_values sys_v dia_v pul_v with
                  | .error m => .error (.valueError m)
                  | .ok () =>
                    .ok { t := now, sys := sys_v, dia := dia_v, pulse := pul_v,
                          raw := l, local_tz := tzName local_tz }

/-- The `else` branch of the `/add` try block (lines 374-378 and 382-392):
require all three individual fields, validate them, and build the entry
(`raw` records the three values). -/
def addFields (sys_bp dia_bp pulse : Option Int) (local_tz : Option String)
    (now : Timestamp) : Except PyExc Entry :=
  match sys_bp, dia_bp, pulse with
  | some s, some d, some p =>
    match validate_values s d p with
    | .error m => .error (.valueError m)
    | .ok () =>
      .ok { t := now, sys := s, dia := d, pulse := p,
            raw := "sys_bp=" ++ toString s ++ " dia_bp=" ++ toString d
              ++ " pulse=" ++ toString p,
            local_tz := tzName local_tz }
  | _, _, _ => .error (.valueError ("Need three values: sys, dia, pulse"))

/-- The whole `try` block of the `/add` handler (lines 354-393), producing
the entry passed to `append_entry`. -/
def addTryBody (form : AddForm) (now : Timestamp) : Except PyExc Entry :=
  if lineTruthy form.line then
    addLine (form.line.getD ("")) form.local_tz now
  else
    addFields form.sys_bp form.dia_bp form.pulse form.local_tz now

/-- The `/add` handler (`main.py` lines 344-397) acting on the record store:
on success the entry is appended and the status is `"Saved"`; a
`ValueError` is caught and surfaced as an `Error:` status with the store
untouched; an `IndexError` escapes the handler (`Except.error ()`), and the
store is untouched since it is raised before `append_entry` runs. -/
def add (store : List Entry) (form : AddForm) (now : Timestamp) :
    Except Unit (List Entry × String) :=
  match addTryBody form now with
  | .ok entry => .ok (store ++ [entry], "Saved")
  | .error (.valueError m) => .ok (store, "Error: " ++ m)
  | .error .indexError => .error ()

/-- Outcome of `json.loads` on a non-blank stored line.  `record e` stands
for a JSON object carrying a parseable ISO `"t"` together with the reading
fields (a well-formed stored record); `anomalous` stands for any other
successfully parsed JSON value — one on which the sort key `parse_iso(x["t"])`
of `read_all` raises (a non-object such as `{}` or `123`, a missing `"t"`,
or an unparseable timestamp string). -/
inductive JsonLine where
  | record (e : Entry)
  | anomalous
deriving DecidableEq, Repr

/-- One physical line of the store file `bp.ndjson`, classified by what
`read_all` does with it: blank after `strip()`, rejected by `json.loads`
(the `try` swallows the exception and skips the line), or parsed JSON. -/
inductive RawLine where
  | blank
  | notJson
  | parsed (j : JsonLine)
deriving DecidableEq, Repr

/-- The accumulation loop of `read_all` (lines 77-84): blank lines and
lines `json.loads` rejects are skipped, every parsed JSON value is kept. -/
def decodeLines (lines : List RawLine) : List JsonLine :=
  lines.filterMap (fun l =>
    match l with
    | .blank => none
    | .notJson => none
    | .parsed j => some j)

/-- Function `read_all` (`main.py` lines 73-87): collect the parsed lines,
then sort by `parse_iso(x["t"])`.  Computing that key on an `anomalous`
item raises (`KeyError` / `TypeError` / `ValueError`), which nothing in
`read_all` catches — `Except.error ()`; `list.sort` evaluates the key of
every item, so the sort succeeds exactly when every kept item is a
well-formed record. -/
def read_all (lines : List RawLine) : Except Unit (List Entry) :=
  let items := decodeLines lines
  if items.all (fun j => match j with | .record _ => true | .anomalous => false) then
    .ok (List.insertionSort entryLe (items.filterMap
      (fun j => match j with | .record e => some e | .anomalous => none)))
  else
    .error ()

/-- Zero-padded decimal of width 2, as Python `isoformat` renders calendar
fields. -/
def pad2 (n : Nat) : String :=
  if n < 10 then "0" ++ toString n else toString n

/-- Zero-padded decimal of width 4, as Python `isoformat` renders years. -/
def pad4 (n : Nat) : String :=
  if n < 10 then "000" ++ toString n
  else if n < 100 then "00" ++ toString n
  else if n < 1000 then "0" ++ toString n
  else toString n

/-- The UTC-offset suffix of `datetime.isoformat`: sign, hours, minutes. -/
def offRender (o : Int) : String :=
  let a := o.natAbs
  (if o < 0 then "-" else "+") ++ pad2 (a / 60) ++ ":" ++ pad2 (a % 60)

/-- The `"t"` string of an entry as the program writes it
(`datetime.isoformat(timespec="seconds")`):
`YYYY-MM-DDTHH:MM:SS+HH:MM`. -/
def tsRender (t : Timestamp) : String :=
  pad4 t.year ++ "-" ++ pad2 t.month ++ "-" ++ pad2 t.day ++ "T"
    ++ pad2 t.hour ++ ":" ++ pad2 t.minute ++ ":" ++ pad2 t.second
    ++ offRender t.offMin

/-- Lexicographic comparison of character lists by Unicode code point —
Python string `<=`. -/
def charListLe : List Char → List Char → Bool
  | [], _ => true
  | _ :: _, [] => false
  | a :: as, b :: bs =>
    if a.toNat < b.toNat then true
    else if b.toNat < a.toNat then false
    else charListLe as bs

/-- Order on entries used by the two `sort(key=lambda x: x["t"])` calls of
`save_edit` (lines 544 and 550): Python compares the raw timestamp
strings. -/
def entryStrLe (a b : Entry) : Prop :=
  charListLe (tsRender a.t).toList (tsRender b.t).toList = true

instance : DecidableRel entryStrLe := fun _ _ => instDecidableEqBool _ _

/-- Totality of the code-point lexicographic comparison. -/
def charListLe_total (a b : List Char) : charListLe a b = true ∨ charListLe b a = true := by
  induction a generalizing b with
  | nil => exact Or.inl rfl
  | cons x xs ih =>
    cases b with
    | nil => exact Or.inr rfl
    | cons y ys =>
      by_cases h1 : x.toNat < y.toNat
      · left; simp [charListLe, h1]
      · by_cases h2 : y.toNat < x.toNat
        · right; simp [charListLe, h2]
        · rcases ih ys with h | h
          · left; simp [charListLe, h1, h2, h]
          · right; simp [charListLe, h1, h2, h]

/-- Transitivity of the code-point lexicographic comparison. -/
def charListLe_trans {a b c : List Char} (h1 : charListLe a b = true)
    (h2 : charListLe b c = true) : charListLe a c = true := by
  induction a generalizing b c with
  | nil => rfl
  | cons x xs ih =>
    cases b with
    | nil => simp [charListLe] at h1
    | cons y ys =>
      cases c with
      | nil => simp [charListLe] at h2
      | cons z zs =>
        simp only [charListLe] at h1 h2 ⊢
        by_cases hxy : x.toNat < y.toNat
        · by_cases hyz : y.toNat < z.toNat
          · simp [Nat.lt_trans hxy hyz]
          · by_cases hzy : z.toNat < y.toNat
            · simp [hyz, hzy] at h2
            · have : y.toNat = z.toNat := Nat.le_antisymm (Nat.le_of_not_lt hzy) (Nat.le_of_not_lt hyz)
              simp [this ▸ hxy]
        · by_cases hyx : y.toNat < x.toNat
          · simp [hxy, hyx] at h1
          · have exy : x.toNat = y.toNat := Nat.le_antisymm (Nat.le_of_not_lt hyx) (Nat.le_of_not_lt hxy)
            by_cases hyz : y.toNat < z.toNat
            · simp [exy ▸ hyz]
            · by_cases hzy : z.toNat < y.toNat
              · simp [hyz, hzy] at h2
              · rw [if_neg hxy, if_neg hyx] at h1
                rw [if_neg hyz, if_neg hzy] at h2
                have exz : ¬ x.toNat < z.toNat := exy ▸ hyz
                have hzx : ¬ z.toNat < x.toNat := exy ▸ hzy
                rw [if_neg exz, if_neg hzx]
                exact ih h1 h2

instance : IsTotal Entry entryStrLe :=
  ⟨fun a b => charListLe_total (tsRender a.t).toList (tsRender b.t).toList⟩

instance : IsTrans Entry entryStrLe :=
  ⟨fun _ _ _ h1 h2 => charListLe_trans h1 h2⟩

/-- Python `l[:-10]`: all but the last ten elements, empty when the list
has at most ten. -/
def pyDropLast10 {α : Type} (l : List α) : List α :=
  l.take (l.length - 10)

/-- What `save_edit` leaves on disk: the rewritten store, the backup copy
of the pre-edit store when one was made, and the status message.  (The
backup filename carries a wall-clock suffix, not modelled; the success
status is truncated to its fixed prefix for the same reason.) -/
structure SaveEditOutcome where
  store : List Entry
  backup : Option (List Entry)
  status : String
deriving DecidableEq, Repr

/-- One row of the edit form.  `t = none` stands for a submitted timestamp
string that `parse_iso` rejects (`ValueError`); the message of that error
is summarised as `Invalid isoformat string` (Python quotes the offending
text). -/
def editRow (t : Option Timestamp) (sys dia pulse : Int) (raw local_tz : String)
    (i : Nat) : Except String Entry :=
  match t with
  | none => .error ("Entry " ++ toString (i + 1) ++ ": Invalid isoformat string")
  | some ts =>
    match validate_values sys dia pulse with
    | .error m => .error ("Entry " ++ toString (i + 1) ++ ": " ++ m)
    | .ok () =>
      .ok { t := ts, sys := sys, dia := dia, pulse := pulse,
            raw := raw, local_tz := local_tz }

/-- Decidable equality of `Except` results, for concrete evaluation. -/
instance {ε α : Type} [DecidableEq ε] [DecidableEq α] : DecidableEq (Except ε α)
  | .error a, .error b =>
    if h : a = b then .isTrue (by rw [h]) else .isFalse (by simp [h])
  | .error _, .ok _ => .isFalse (by simp)
  | .ok _, .error _ => .isFalse (by simp)
  | .ok a, .ok b =>
    if h : a = b then .isTrue (by rw [h]) else .isFalse (by simp [h])

/-- The entry built from row `i` of an edit form whose timestamps all
parsed (the default timestamp is never used when `i` is in range). -/
def editedEntry (ts : List Timestamp) (sys dia pulse : List Int)
    (raw local_tz : List String) (i : Nat) : Entry :=
  { t := ts.getD i ⟨1, 1, 1, 0, 0, 0, 0⟩, sys := sys.getD i 0, dia := dia.getD i 0,
    pulse := pulse.getD i 0, raw := raw.getD i (""), local_tz := local_tz.getD i ("") }

/-- Handler `save_edit` (`main.py` lines 478-592) acting on the store.
Mismatched field-list lengths or any per-row validation error leave the
store untouched.  Otherwise: `read_all` yields the store sorted by parsed
time; it is re-sorted by the raw timestamp string; all but the last ten of
that ordering are kept, the edited rows are appended, the result is sorted
by timestamp string again; the pre-edit store is first copied to a backup
(the data file always exists at that point, `read_all` has ensured it). -/
def save_edit (store : List Entry) (t : List (Option Timestamp))
    (sys dia pulse : List Int) (raw local_tz : List String) : SaveEditOutcome :=
  if ¬ (t.length = sys.length ∧ sys.length = dia.length ∧ dia.length = pulse.length
      ∧ pulse.length = raw.length ∧ raw.length = local_tz.length) then
    { store := store, backup := none, status := "Error: Mismatched number of fields" }
  else
    let n := t.length
    let rowResults := (List.range n).map (fun i =>
      editRow (t.getD i none) (sys.getD i 0) (dia.getD i 0) (pulse.getD i 0)
        (raw.getD i ("")) (local_tz.getD i ("")) i)
    let edited_entries := rowResults.filterMap (fun r => r.toOption)
    let errors := rowResults.filterMap (fun r =>
      match r with | .error m => some m | .ok _ => none)
    if errors ≠ [] then
      { store := store, backup := none,
        status := "Validation errors: " ++ String.intercalate ("; ") errors }
    else
      let all_entries := List.insertionSort entryStrLe
        (List.insertionSort entryLe store)
      let combined_entries := pyDropLast10 all_entries ++ edited_entries
      let combined_sorted := List.insertionSort entryStrLe combined_entries
      { store := combined_sorted, backup := some store,
        status := "Data saved successfully." }

/-- Sample wall-clock instant 2025-11-17T10:00:00+08:00 for concrete runs. -/
def sampleNow : Timestamp := ⟨2025, 11, 17, 10, 0, 0, 480⟩

/-- Sample reading taken 2025-11-17T09:19:21+08:00 (a morning slot). -/
def sample0919 : Entry :=
  { t := ⟨2025, 11, 17, 9, 19, 21, 480⟩, sys := 120, dia := 80, pulse := 60,
    raw := "", local_tz := "Asia/Shanghai" }

/-- Sample reading taken 2025-11-17T12:14:14+08:00 (neither slot). -/
def sample1214 : Entry :=
  { t := ⟨2025, 11, 17, 12, 14, 14, 480⟩, sys := 125, dia := 82, pulse := 61,
    raw := "", local_tz := "Asia/Shanghai" }

/-- Sample reading taken 2025-11-17T22:13:31+08:00 (an evening slot). -/
def sample2213 : Entry :=
  { t := ⟨2025, 11, 17, 22, 13, 31, 480⟩, sys := 130, dia := 85, pulse := 62,
    raw := "", local_tz := "Asia/Shanghai" }

/-- Sample reading taken 2025-11-16T22:34:40+08:00 (previous day). -/
def sampleNov16 : Entry :=
  { t := ⟨2025, 11, 16, 22, 34, 40, 480⟩, sys := 118, dia := 79, pulse := 58,
    raw := "", local_tz := "Asia/Shanghai" }

/-!
Theorems.  Shared helper lemmas come first, then one theorem per claim
(with its witness or counterexample).
-/

/-- Success of `validate_values` is exactly: every value within its fixed
range and diastolic at most systolic. -/
theorem validate_values_ok_iff (s d p : Int) :
    validate_values s d p = .ok () ↔
      (SYS_MIN ≤ s ∧ s ≤ SYS_MAX ∧ DIA_MIN ≤ d ∧ d ≤ DIA_MAX
        ∧ PUL_MIN ≤ p ∧ p ≤ PUL_MAX ∧ d ≤ s) := by
  unfold validate_values SYS_MIN SYS_MAX DIA_MIN DIA_MAX PUL_MIN PUL_MAX
  split_ifs with h1 h2 h3 h4
  all_goals first
    | exact iff_of_true rfl (by omega)
    | exact iff_of_false (by simp) (by omega)

/-- C2: `validate_values(sys_bp, dia_bp, pulse)` raises a `ValueError` iff
some value lies outside its fixed range (systolic `[70,250]`, diastolic
`[40,150]`, pulse `[30,220]`) or diastolic exceeds systolic; the message of
the first failing check names the violated bound; otherwise it returns
normally. -/
theorem C2_validate_values (s d p : Int) :
    (validate_values s d p = .ok () ↔
      (SYS_MIN ≤ s ∧ s ≤ SYS_MAX ∧ DIA_MIN ≤ d ∧ d ≤ DIA_MAX
        ∧ PUL_MIN ≤ p ∧ p ≤ PUL_MAX ∧ d ≤ s))
    ∧ (¬ (SYS_MIN ≤ s ∧ s ≤ SYS_MAX) →
        validate_values s d p = .error ("Systolic out of range 70-250"))
    ∧ ((SYS_MIN ≤ s ∧ s ≤ SYS_MAX) → ¬ (DIA_MIN ≤ d ∧ d ≤ DIA_MAX) →
        validate_values s d p = .error ("Diastolic out of range 40-150"))
    ∧ ((SYS_MIN ≤ s ∧ s ≤ SYS_MAX) → (DIA_MIN ≤ d ∧ d ≤ DIA_MAX) →
        ¬ (PUL_MIN ≤ p ∧ p ≤ PUL_MAX) →
        validate_values s d p = .error ("Pulse out of range 30-220"))
    ∧ ((SYS_MIN ≤ s ∧ s ≤ SYS_MAX) → (DIA_MIN ≤ d ∧ d ≤ DIA_MAX) →
        (PUL_MIN ≤ p ∧ p ≤ PUL_MAX) → s < d →
        validate_values s d p = .error ("Diastolic cannot be greater than systolic")) := by
  refine ⟨validate_values_ok_iff s d p, ?_, ?_, ?_, ?_⟩
  · intro h1
    unfold validate_values
    rw [if_pos h1]
    rfl
  · intro h1 h2
    unfold validate_values
    rw [if_neg (not_not_intro h1), if_pos h2]
    rfl
  · intro h1 h2 h3
    unfold validate_values
    rw [if_neg (not_not_intro h1), if_neg (not_not_intro h2), if_pos h3]
    rfl
  · intro h1 h2 h3 h4
    unfold validate_values
    rw [if_neg (not_not_intro h1), if_neg (not_not_intro h2),
      if_neg (not_not_intro h3), if_pos h4]

/-- Witness for C2 at concrete inputs: one accepted triple and one instance
of each of the four rejections. -/
theorem C2_validate_values_witness :
    (validate_values 120 80 60 = .ok ())
    ∧ (validate_values 300 80 60 = .error ("Systolic out of range 70-250"))
    ∧ (validate_values 120 160 60 = .error ("Diastolic out of range 40-150"))
    ∧ (validate_values 120 80 10 = .error ("Pulse out of range 30-220"))
    ∧ (validate_values 120 130 60 = .error ("Diastolic cannot be greater than systolic")) :=
  ⟨(C2_validate_values 120 80 60).1.mpr (by decide),
   (C2_validate_values 300 80 60).2.1 (by decide),
   (C2_validate_values 120 160 60).2.2.1 (by decide) (by decide),
   (C2_validate_values 120 80 10).2.2.2.1 (by decide) (by decide) (by decide),
   (C2_validate_values 120 130 60).2.2.2.2 (by decide) (by decide) (by decide) (by decide)⟩

/-- Stripping a whitespace-only string leaves nothing to split. -/
theorem pySplit_pyStrip_ws (s : String) (h : s.toList.all Char.isWhitespace = true) :
    pySplit (pyStrip s) = [] := by
  have hd : s.toList.dropWhile Char.isWhitespace = [] := by
    rw [List.dropWhile_eq_nil_iff]
    intro x hx
    exact List.all_eq_true.mp h x hx
  unfold pyStrip
  rw [hd]
  rfl

/-- C10: `compute_median_avg` is undefined on the empty list (its middle
index falls outside the empty sorted list), and the `/add` handler reaches
that case on a non-empty, all-whitespace line: zero triples pass the
multiple-of-3 check and the resulting `IndexError` escapes the handler's
`ValueError` catch. -/
theorem C10_empty_median_uncaught (store : List Entry) (now : Timestamp)
    (s : String) (hne : s ≠ "") (hws : s.toList.all Char.isWhitespace = true) :
    compute_median_avg [] = none
    ∧ add store { line := some s, sys_bp := none, dia_bp := none, pulse := none, local_tz := none } now = .error () := by
  refine ⟨rfl, ?_⟩
  unfold add addTryBody
  have hl : lineTruthy (some s) = true := by simp [lineTruthy, hne]
  rw [hl]
  simp only [if_true, Option.getD_some]
  unfold addLine
  rw [pySplit_pyStrip_ws s hws]
  rfl

/-- Witness for C10 at the single-space line. -/
theorem C10_empty_median_uncaught_witness :
    compute_median_avg [] = none
    ∧ add [] { line := some (" "), sys_bp := none, dia_bp := none, pulse := none, local_tz := none } ⟨2025, 11, 17, 10, 0, 0, 480⟩ = .error () :=
  C10_empty_median_uncaught [] ⟨2025, 11, 17, 10, 0, 0, 480⟩ (" ") (by decide) (by decide)

/-- Counterexample to C5 as stated: a store holding the single line `{}` —
valid JSON, hence not skipped, but not a well-formed record — makes
`read_all` raise (`KeyError` on `x["t"]` in the sort key) instead of
returning the well-formed records. -/
theorem C5_counterexample :
    read_all [RawLine.parsed JsonLine.anomalous] = .error () := rfl

/-- C5 (amended): when every line that parses as JSON is a well-formed
record, `read_all` skips the blank lines and the lines `json.loads`
rejects, raises nothing, and returns exactly the well-formed records,
sorted by parsed timestamp. -/
theorem C5_read_all_skips_malformed (lines : List RawLine)
    (h : ∀ j ∈ decodeLines lines, j ≠ JsonLine.anomalous) :
    ∃ items, read_all lines = .ok items
      ∧ items.Perm (lines.filterMap (fun r =>
          match r with | .parsed (.record e) => some e | _ => none))
      ∧ List.Sorted entryLe items := by
  have hall : (decodeLines lines).all
      (fun j => match j with | .record _ => true | .anomalous => false) = true := by
    rw [List.all_eq_true]
    intro j hj
    cases j with
    | record e => rfl
    | anomalous => exact absurd rfl (h _ hj)
  have hra : read_all lines = .ok (List.insertionSort entryLe
      ((decodeLines lines).filterMap
        (fun j => match j with | .record e => some e | .anomalous => none))) := by
    simp only [read_all]
    rw [hall]
    rfl
  refine ⟨_, hra, ?_, List.sorted_insertionSort entryLe _⟩
  refine (List.perm_insertionSort entryLe _).trans (List.Perm.of_eq ?_)
  unfold decodeLines
  rw [List.filterMap_filterMap]
  apply List.filterMap_congr
  intro r _
  cases r with
  | blank => rfl
  | notJson => rfl
  | parsed j => cases j <;> rfl

/-- Witness for C5's amended theorem: a store with one blank line, one
non-JSON line and two records out of time order. -/
theorem C5_read_all_skips_malformed_witness :
    ∃ items,
      read_all [RawLine.blank, RawLine.notJson, RawLine.parsed (.record sample2213),
        RawLine.parsed (.record sample0919)] = .ok items
      ∧ items.Perm [sample2213, sample0919]
      ∧ List.Sorted entryLe items :=
  C5_read_all_skips_malformed _ (by decide)

/-- Dict lookup on a cons cell. -/
theorem groupGet_cons (k0 : DateKey) (l0 : List Entry)
    (rest : List (DateKey × List Entry)) (k : DateKey) :
    groupGet ((k0, l0) :: rest) k = if k0 = k then l0 else groupGet rest k := by
  by_cases h : k0 = k
  · simp [groupGet, List.find?_cons, h]
  · simp [groupGet, List.find?_cons, h]

/-- Appending one entry touches exactly its own bucket, at the end. -/
theorem groupGet_addToGroup (g : List (DateKey × List Entry)) (k' k : DateKey)
    (e : Entry) :
    groupGet (addToGroup g k' e) k
      = groupGet g k ++ if k' = k then [e] else [] := by
  induction g with
  | nil =>
    by_cases h : k' = k
    · simp [addToGroup, groupGet_cons, groupGet, h]
    · simp [addToGroup, groupGet_cons, groupGet, h]
  | cons p rest ih =>
    obtain ⟨k0, l0⟩ := p
    by_cases h1 : k0 = k'
    · rw [addToGroup, if_pos h1, groupGet_cons, groupGet_cons]
      by_cases h2 : k0 = k
      · have hk : k' = k := h1.symm.trans h2
        simp [h2, hk]
      · have hk : k' ≠ k := fun hx => h2 (h1.trans hx)
        simp [h2, hk]
    · rw [addToGroup, if_neg h1, groupGet_cons, groupGet_cons]
      by_cases h2 : k0 = k
      · have hk : k' ≠ k := fun hx => h1 (h2.trans hx.symm)
        simp [h2, hk]
      · simp [h2, ih]

/-- The bucket of `k` after folding the whole entry list: whatever was
there before, then the entries of date `k` in order. -/
theorem groupGet_foldl (l : List Entry) (g : List (DateKey × List Entry))
    (k : DateKey) :
    groupGet (l.foldl (fun acc e => addToGroup acc (dateKey e.t) e) g) k
      = groupGet g k ++ l.filter (fun e => decide (dateKey e.t = k)) := by
  induction l generalizing g with
  | nil => simp
  | cons e rest ih =>
    rw [List.foldl_cons, ih, groupGet_addToGroup]
    by_cases h : dateKey e.t = k
    · simp [List.filter_cons, h]
    · simp [List.filter_cons, h]

/-- The `grouped` dict buckets every entry by its local-clock date: the
bucket of `k` is exactly the sublist of entries whose timestamp has
calendar date `k`, in submission order. -/
theorem groupGet_groupedOf (entries : List Entry) (k : DateKey) :
    groupGet (groupedOf entries) k
      = entries.filter (fun e => decide (dateKey e.t = k)) := by
  unfold groupedOf
  rw [groupGet_foldl]
  simp [groupGet]

/-- Keys after one insertion: unchanged if present, appended if new. -/
theorem keys_addToGroup (g : List (DateKey × List Entry)) (k' : DateKey)
    (e : Entry) :
    (addToGroup g k' e).map Prod.fst
      = if k' ∈ g.map Prod.fst then g.map Prod.fst
        else g.map Prod.fst ++ [k'] := by
  induction g with
  | nil => simp [addToGroup]
  | cons p rest ih =>
    obtain ⟨k0, l0⟩ := p
    by_cases h1 : k0 = k'
    · rw [addToGroup, if_pos h1]
      simp [h1]
    · rw [addToGroup, if_neg h1]
      have hne : k' ≠ k0 := fun hx => h1 hx.symm
      by_cases h2 : k' ∈ rest.map Prod.fst
      · simp [h2, hne, ih]
      · simp [h2, hne, ih]

/-- Key membership after one insertion. -/
theorem mem_keys_addToGroup (g : List (DateKey × List Entry)) (k' k : DateKey)
    (e : Entry) :
    k ∈ (addToGroup g k' e).map Prod.fst ↔ k ∈ g.map Prod.fst ∨ k = k' := by
  rw [keys_addToGroup]
  by_cases hm : k' ∈ g.map Prod.fst
  · rw [if_pos hm]
    exact ⟨Or.inl, fun h => h.elim id (fun hk => hk ▸ hm)⟩
  · rw [if_neg hm]
    simp

/-- Distinct keys are preserved by one insertion. -/
theorem keys_nodup_addToGroup (g : List (DateKey × List Entry)) (k' : DateKey)
    (e : Entry) (h : (g.map Prod.fst).Nodup) :
    ((addToGroup g k' e).map Prod.fst).Nodup := by
  rw [keys_addToGroup]
  by_cases hm : k' ∈ g.map Prod.fst
  · rw [if_pos hm]; exact h
  · rw [if_neg hm]
    simp [List.nodup_append, h, hm]

/-- The dict built by the grouping loop has distinct keys. -/
theorem keys_nodup_foldl (l : List Entry) (g : List (DateKey × List Entry))
    (h : (g.map Prod.fst).Nodup) :
    ((l.foldl (fun acc e => addToGroup acc (dateKey e.t) e) g).map Prod.fst).Nodup := by
  induction l generalizing g with
  | nil => exact h
  | cons e rest ih => exact ih _ (keys_nodup_addToGroup _ _ _ h)

/-- Key membership after the whole fold. -/
theorem mem_keys_foldl (l : List Entry) (g : List (DateKey × List Entry))
    (k : DateKey) :
    k ∈ (l.foldl (fun acc e => addToGroup acc (dateKey e.t) e) g).map Prod.fst
      ↔ k ∈ g.map Prod.fst ∨ ∃ e ∈ l, dateKey e.t = k := by
  induction l generalizing g with
  | nil => simp
  | cons e rest ih =>
    rw [List.foldl_cons, ih, mem_keys_addToGroup]
    constructor
    · rintro ((h | h) | h)
      · exact Or.inl h
      · exact Or.inr ⟨e, List.mem_cons_self e rest, h.symm⟩
      · obtain ⟨x, hx, hdx⟩ := h
        exact Or.inr ⟨x, List.mem_cons_of_mem e hx, hdx⟩
    · rintro (h | ⟨x, hx, hdx⟩)
      · exact Or.inl (Or.inl h)
      · rcases List.mem_cons.mp hx with hx | hx
        · subst hx; exact Or.inl (Or.inr hdx.symm)
        · exact Or.inr ⟨x, hx, hdx⟩

/-- A date key occurs in the dict iff some entry has that local date. -/
theorem mem_keys_groupedOf (entries : List Entry) (k : DateKey) :
    k ∈ (groupedOf entries).map Prod.fst ↔ ∃ e ∈ entries, dateKey e.t = k := by
  unfold groupedOf
  rw [mem_keys_foldl]
  simp

/-- The dates of the result list are the dict keys in sorted order. -/
theorem gmbd_map_date (entries : List Entry) :
    (group_measurements_by_date entries).map DayGroup.date
      = List.insertionSort dateLe ((groupedOf entries).map Prod.fst) := by
  unfold group_measurements_by_date
  rw [List.map_map]
  show List.map id _ = _
  rw [List.map_id]

/-- C4: `group_measurements_by_date` buckets every entry under the
local-clock calendar date of its timestamp as written (no timezone
conversion), and emits one result record per non-empty date, in ascending
date order (`dateLe` is exactly the lexicographic order of the zero-padded
ISO date strings the code sorts). -/
theorem C4_group_by_local_date (entries : List Entry) (k : DateKey) :
    groupGet (groupedOf entries) k
        = entries.filter (fun e => decide (dateKey e.t = k))
    ∧ List.Sorted dateLe ((group_measurements_by_date entries).map DayGroup.date)
    ∧ ((group_measurements_by_date entries).map DayGroup.date).Nodup
    ∧ (k ∈ (group_measurements_by_date entries).map DayGroup.date
        ↔ ∃ e ∈ entries, dateKey e.t = k) := by
  refine ⟨groupGet_groupedOf entries k, ?_, ?_, ?_⟩
  · rw [gmbd_map_date]
    exact List.sorted_insertionSort dateLe _
  · rw [gmbd_map_date]
    exact (List.perm_insertionSort dateLe _).nodup_iff.mpr
      (keys_nodup_foldl entries [] (by simp))
  · rw [gmbd_map_date, (List.perm_insertionSort dateLe _).mem_iff]
    exact mem_keys_groupedOf entries k

/-- Witness for C4 at a concrete two-day store. -/
theorem C4_group_by_local_date_witness :
    groupGet (groupedOf [sample0919, sampleNov16]) (2025, 11, 17)
        = [sample0919, sampleNov16].filter (fun e => decide (dateKey e.t = (2025, 11, 17)))
    ∧ List.Sorted dateLe ((group_measurements_by_date [sample0919, sampleNov16]).map DayGroup.date)
    ∧ ((group_measurements_by_date [sample0919, sampleNov16]).map DayGroup.date).Nodup
    ∧ ((2025, 11, 17) ∈ (group_measurements_by_date [sample0919, sampleNov16]).map DayGroup.date
        ↔ ∃ e ∈ [sample0919, sampleNov16], dateKey e.t = (2025, 11, 17)) :=
  C4_group_by_local_date [sample0919, sampleNov16] (2025, 11, 17)

/-- In a sorted list, the head of a filtered sublist is a member satisfying
the predicate and minimal among all members satisfying it; it is `none`
exactly when no member qualifies. -/
theorem head_filter_sorted {p : Entry → Bool} {l : List Entry}
    (hs : List.Sorted entryLe l) :
    (∀ e, (l.filter p).head? = some e →
      e ∈ l ∧ p e = true ∧ ∀ x ∈ l, p x = true → entryLe e x)
    ∧ ((l.filter p).head? = none ↔ ∀ x ∈ l, ¬ p x = true) := by
  constructor
  · intro e he
    obtain ⟨tl, htl⟩ : ∃ tl, l.filter p = e :: tl := by
      cases hfl : l.filter p with
      | nil => rw [hfl] at he; cases he
      | cons a tl =>
        rw [hfl] at he
        injection he with he
        exact ⟨tl, he ▸ rfl⟩
    have hfe : e ∈ l.filter p := htl ▸ List.mem_cons_self e tl
    have hmem := List.mem_filter.mp hfe
    refine ⟨hmem.1, hmem.2, ?_⟩
    intro x hx hpx
    have hxf : x ∈ l.filter p := List.mem_filter.mpr ⟨hx, hpx⟩
    have hsf : List.Sorted entryLe (l.filter p) := hs.filter p
    rw [htl] at hxf hsf
    rcases List.mem_cons.mp hxf with h | h
    · subst h; exact Int.le_refl _
    · exact (List.sorted_cons.mp hsf).1 x h
  · rw [List.head?_eq_none_iff, List.filter_eq_nil_iff]

/-- C1: in every day group, the morning slot holds the time-earliest entry
of that local-clock date whose local hour lies in `[7, 12)` (`none` when no
entry of the date qualifies), and the evening slot the time-earliest entry
with local hour at least 21 (`none` when none qualifies).  In particular a
12:14 reading can never be a morning pick (its hour fails `< 12`). -/
theorem C1_morning_evening_picks (entries : List Entry) (g : DayGroup)
    (hg : g ∈ group_measurements_by_date entries) :
    (∀ e, g.morning = some e →
      e ∈ entries ∧ dateKey e.t = g.date ∧ (7 ≤ e.t.hour ∧ e.t.hour < 12)
        ∧ ∀ e2 ∈ entries, dateKey e2.t = g.date →
            7 ≤ e2.t.hour → e2.t.hour < 12 → instantSecs e.t ≤ instantSecs e2.t)
    ∧ (g.morning = none ↔
        ∀ e ∈ entries, dateKey e.t = g.date → ¬ (7 ≤ e.t.hour ∧ e.t.hour < 12))
    ∧ (∀ e, g.evening = some e →
      e ∈ entries ∧ dateKey e.t = g.date ∧ 21 ≤ e.t.hour
        ∧ ∀ e2 ∈ entries, dateKey e2.t = g.date →
            21 ≤ e2.t.hour → instantSecs e.t ≤ instantSecs e2.t)
    ∧ (g.evening = none ↔
        ∀ e ∈ entries, dateKey e.t = g.date → ¬ 21 ≤ e.t.hour) := by
  unfold group_measurements_by_date at hg
  obtain ⟨d, hd, hgd⟩ := List.mem_map.mp hg
  subst hgd
  simp only
  set ms := List.insertionSort entryLe (groupGet (groupedOf entries) d) with hms
  have hsort : List.Sorted entryLe ms := List.sorted_insertionSort entryLe _
  have hperm : ms.Perm (entries.filter (fun e => decide (dateKey e.t = d))) := by
    rw [hms, groupGet_groupedOf]
    exact List.perm_insertionSort entryLe _
  have hmem : ∀ x, x ∈ ms ↔ (x ∈ entries ∧ dateKey x.t = d) := by
    intro x
    rw [hperm.mem_iff, List.mem_filter]
    simp
  refine ⟨?_, ?_, ?_, ?_⟩
  · intro e he
    obtain ⟨h1, h2, h3⟩ := (head_filter_sorted hsort).1 e he
    have hm := (hmem e).mp h1
    refine ⟨hm.1, hm.2, by simpa using h2, ?_⟩
    intro e2 he2 hd2 hh1 hh2
    exact h3 e2 ((hmem e2).mpr ⟨he2, hd2⟩) (by simp [hh1, hh2])
  · rw [(head_filter_sorted hsort).2]
    constructor
    · intro h e he hd2
      simpa using h e ((hmem e).mpr ⟨he, hd2⟩)
    · intro h x hx
      have := (hmem x).mp hx
      simpa using h x this.1 this.2
  · intro e he
    obtain ⟨h1, h2, h3⟩ := (head_filter_sorted hsort).1 e he
    have hm := (hmem e).mp h1
    refine ⟨hm.1, hm.2, by simpa using h2, ?_⟩
    intro e2 he2 hd2 hh1
    exact h3 e2 ((hmem e2).mpr ⟨he2, hd2⟩) (by simp [hh1])
  · rw [(head_filter_sorted hsort).2]
    constructor
    · intro h e he hd2
      simpa using h e ((hmem e).mpr ⟨he, hd2⟩)
    · intro h x hx
      have := (hmem x).mp hx
      simpa using h x this.1 this.2

/-- Witness for C1 at the spec's own example: on 2025-11-17 with readings
at 09:19, 12:14 and 22:13, the morning pick is the 09:19 reading and the
evening pick the 22:13 reading, with the qualifying-window facts extracted
by the theorem. -/
theorem C1_morning_evening_picks_witness :
    (sample0919 ∈ [sample2213, sample0919, sample1214]
      ∧ dateKey sample0919.t = (2025, 11, 17)
      ∧ (7 ≤ sample0919.t.hour ∧ sample0919.t.hour < 12))
    ∧ (sample2213 ∈ [sample2213, sample0919, sample1214]
      ∧ dateKey sample2213.t = (2025, 11, 17)
      ∧ 21 ≤ sample2213.t.hour) := by
  have h := C1_morning_evening_picks [sample2213, sample0919, sample1214]
    { date := (2025, 11, 17), morning := some sample0919, evening := some sample2213 }
    (by decide)
  have hm := h.1 sample0919 rfl
  have he := h.2.2.1 sample2213 rfl
  exact ⟨⟨hm.1, hm.2.1, hm.2.2.1⟩, ⟨he.1, he.2.1, he.2.2.1⟩⟩

/-- Every entry the line branch returns has passed the final aggregate
validation, whose values are exactly the entry's stored values. -/
theorem addLine_ok_valid {l : String} {tz : Option String} {now : Timestamp}
    {e : Entry} (h : addLine l tz now = .ok e) :
    validate_values e.sys e.dia e.pulse = .ok () := by
  simp only [addLine] at h
  split at h
  · exact Except.noConfusion h
  · split at h
    · exact Except.noConfusion h
    · split at h
      · exact Except.noConfusion h
      · split at h
        · exact Except.noConfusion h
        · split at h
          · exact Except.noConfusion h
          · split at h
            · exact Except.noConfusion h
            · split at h
              · exact Except.noConfusion h
              · split at h
                · exact Except.noConfusion h
                · split at h
                  · exact Except.noConfusion h
                  · injection h with h
                    subst h
                    rename_i hvv
                    exact hvv

/-- Every entry the individual-fields branch returns has passed
`validate_values` on exactly its stored values. -/
theorem addFields_ok_valid {sb db pb : Option Int} {tz : Option String}
    {now : Timestamp} {e : Entry} (h : addFields sb db pb tz now = .ok e) :
    validate_values e.sys e.dia e.pulse = .ok () := by
  unfold addFields at h
  split at h
  · split at h
    · exact Except.noConfusion h
    · injection h with h
      subst h
      rename_i hvv
      exact hvv
  all_goals exact Except.noConfusion h

/-- Every entry the try block of `/add` produces has passed
`validate_values` on its stored values. -/
theorem addTryBody_ok_valid {form : AddForm} {now : Timestamp} {e : Entry}
    (h : addTryBody form now = .ok e) :
    validate_values e.sys e.dia e.pulse = .ok () := by
  unfold addTryBody at h
  split at h
  · exact addLine_ok_valid h
  · exact addFields_ok_valid h

/-- C3: every entry the `/add` handler appends to the store — whether it
came from the multi-triple line input or from the three individual form
fields — satisfies the data-model invariant: all three values within their
fixed physiological ranges and diastolic at most systolic. -/
theorem C3_appended_entries_validated (store : List Entry) (form : AddForm)
    (now : Timestamp) (store2 : List Entry) (msg : String) (e : Entry)
    (h : add store form now = .ok (store2, msg)) (happ : store2 = store ++ [e]) :
    SYS_MIN ≤ e.sys ∧ e.sys ≤ SYS_MAX ∧ DIA_MIN ≤ e.dia ∧ e.dia ≤ DIA_MAX
      ∧ PUL_MIN ≤ e.pulse ∧ e.pulse ≤ PUL_MAX ∧ e.dia ≤ e.sys := by
  rw [← validate_values_ok_iff]
  unfold add at h
  cases htb : addTryBody form now with
  | ok e0 =>
    simp only [htb] at h
    injection h with h
    injection h with h1 h2
    rw [← h1] at happ
    have he : e0 = e := by
      have := List.append_cancel_left happ
      injection this
    exact he ▸ addTryBody_ok_valid htb
  | error exc =>
    cases exc with
    | valueError m =>
      simp only [htb] at h
      injection h with h
      injection h with h1 h2
      rw [← h1] at happ
      exact absurd happ (by simp)
    | indexError => simp [htb] at h

/-- Witness for C3: the concrete two-triple submission appends the median
entry, which the theorem certifies to satisfy the invariant. -/
theorem C3_appended_entries_validated_witness :
    SYS_MIN ≤ (125 : Int) ∧ (125 : Int) ≤ SYS_MAX ∧ DIA_MIN ≤ (85 : Int)
      ∧ (85 : Int) ≤ DIA_MAX ∧ PUL_MIN ≤ (65 : Int) ∧ (65 : Int) ≤ PUL_MAX
      ∧ (85 : Int) ≤ (125 : Int) :=
  C3_appended_entries_validated []
    { line := some ("120 80 60 130 90 70"), sys_bp := none, dia_bp := none, pulse := none, local_tz := none }
    sampleNow
    [{ t := sampleNow, sys := 125, dia := 85, pulse := 65, raw := "120 80 60 130 90 70", local_tz := "Asia/Shanghai" }]
    ("Saved")
    { t := sampleNow, sys := 125, dia := 85, pulse := 65, raw := "120 80 60 130 90 70", local_tz := "Asia/Shanghai" }
    rfl rfl

/-- C6: outcomes of the `/add` handler: a caught validation failure leaves
the record store unchanged and surfaces the error as an `Error:` status
message; a successful validation appends exactly one entry and reports
`Saved`; and every non-crashing run is of one of those two shapes. -/
theorem C6_validation_failure_no_append (store : List Entry) (form : AddForm)
    (now : Timestamp) :
    (∀ store2 msg, add store form now = .ok (store2, msg) →
      (store2 = store ∧ ∃ m, msg = "Error: " ++ m)
      ∨ (∃ e, store2 = store ++ [e] ∧ msg = "Saved"))
    ∧ (∀ m, addTryBody form now = .error (.valueError m) →
        add store form now = .ok (store, "Error: " ++ m))
    ∧ (∀ e, addTryBody form now = .ok e →
        add store form now = .ok (store ++ [e], "Saved")) := by
  refine ⟨?_, ?_, ?_⟩
  · intro store2 msg h
    unfold add at h
    cases htb : addTryBody form now with
    | ok e0 =>
      simp only [htb] at h
      injection h with h
      injection h with h1 h2
      exact Or.inr ⟨e0, h1.symm, h2.symm⟩
    | error exc =>
      cases exc with
      | valueError m =>
        simp only [htb] at h
        injection h with h
        injection h with h1 h2
        exact Or.inl ⟨h1.symm, m, h2.symm⟩
      | indexError => simp [htb] at h
  · intro m htb
    unfold add
    rw [htb]
  · intro e htb
    unfold add
    rw [htb]

/-- Witness for C6: a rejected triple leaves the store empty with an error
status; an accepted triple appends exactly one entry with status Saved. -/
theorem C6_validation_failure_no_append_witness :
    (add [] { line := some ("60 80 60"), sys_bp := none, dia_bp := none, pulse := none, local_tz := none } sampleNow
      = .ok ([], "Error: " ++ "Systolic out of range 70-250"))
    ∧ (add [] { line := some ("120 80 60"), sys_bp := none, dia_bp := none, pulse := none, local_tz := none } sampleNow
      = .ok ([] ++ [{ t := sampleNow, sys := 120, dia := 80, pulse := 60, raw := "120 80 60", local_tz := "Asia/Shanghai" }], "Saved")) :=
  ⟨(C6_validation_failure_no_append []
      { line := some ("60 80 60"), sys_bp := none, dia_bp := none, pulse := none, local_tz := none }
      sampleNow).2.1 ("Systolic out of range 70-250") rfl,
   (C6_validation_failure_no_append []
      { line := some ("120 80 60"), sys_bp := none, dia_bp := none, pulse := none, local_tz := none }
      sampleNow).2.2
      { t := sampleNow, sys := 120, dia := 80, pulse := 60, raw := "120 80 60", local_tz := "Asia/Shanghai" }
      rfl⟩

/-- C7: a successful bulk edit copies the pre-edit store to a backup
before overwriting, and rewrites the store as: all records except the last
ten (in the order sorted by timestamp string) plus the edited rows, sorted
by timestamp string; in particular every record other than the last ten is
preserved in the rewritten store. -/
theorem C7_save_edit_frame (store : List Entry) (ts : List Timestamp)
    (sys dia pulse : List Int) (raw local_tz : List String)
    (hl1 : ts.length = sys.length) (hl2 : sys.length = dia.length)
    (hl3 : dia.length = pulse.length) (hl4 : pulse.length = raw.length)
    (hl5 : raw.length = local_tz.length)
    (hval : ∀ i < ts.length,
      validate_values (sys.getD i 0) (dia.getD i 0) (pulse.getD i 0) = .ok ()) :
    (save_edit store (ts.map some) sys dia pulse raw local_tz).backup = some store
    ∧ List.Sorted entryStrLe (save_edit store (ts.map some) sys dia pulse raw local_tz).store
    ∧ (save_edit store (ts.map some) sys dia pulse raw local_tz).store.Perm
        (pyDropLast10 (List.insertionSort entryStrLe (List.insertionSort entryLe store))
          ++ (List.range ts.length).map (editedEntry ts sys dia pulse raw local_tz))
    ∧ ∀ e ∈ pyDropLast10 (List.insertionSort entryStrLe (List.insertionSort entryLe store)),
        e ∈ (save_edit store (ts.map some) sys dia pulse raw local_tz).store := by
  have hrow : (List.range (ts.map some).length).map (fun i =>
      editRow ((ts.map some).getD i none) (sys.getD i 0) (dia.getD i 0)
        (pulse.getD i 0) (raw.getD i ("")) (local_tz.getD i ("")) i)
      = (List.range (ts.map some).length).map (fun i =>
        Except.ok (editedEntry ts sys dia pulse raw local_tz i)) := by
    apply List.map_congr_left
    intro i hi
    have hilt : i < ts.length := by
      simpa using List.mem_range.mp hi
    have hts : (ts.map some).getD i none
        = some (ts.getD i ⟨1, 1, 1, 0, 0, 0, 0⟩) := by
      rw [List.getD_eq_getElem?_getD, List.getD_eq_getElem?_getD,
        List.getElem?_map, List.getElem?_eq_getElem hilt]
      rfl
    rw [hts]
    unfold editRow
    rw [hval i hilt]
    rfl
  have hek : List.filterMap (fun r => Except.toOption r)
      ((List.range (ts.map some).length).map (fun i =>
        (Except.ok (editedEntry ts sys dia pulse raw local_tz i) : Except String Entry)))
      = (List.range ts.length).map (editedEntry ts sys dia pulse raw local_tz) := by
    rw [List.filterMap_map, List.length_map]
    have : ∀ (L : List Nat), List.filterMap ((fun r => Except.toOption r) ∘ (fun i =>
        (Except.ok (editedEntry ts sys dia pulse raw local_tz i) : Except String Entry))) L
        = L.map (editedEntry ts sys dia pulse raw local_tz) := by
      intro L
      induction L with
      | nil => rfl
      | cons a L ih => simp only [List.filterMap_cons, List.map_cons, ih]; rfl
    exact this _
  have herr : List.filterMap (fun r =>
      match r with | Except.error m => some m | Except.ok _ => none)
      ((List.range (ts.map some).length).map (fun i =>
        (Except.ok (editedEntry ts sys dia pulse raw local_tz i) : Except String Entry)))
      = ([] : List String) := by
    rw [List.filterMap_map]
    have : ∀ (L : List Nat), List.filterMap ((fun r =>
        match r with | Except.error m => some m | Except.ok _ => none) ∘ (fun i =>
        (Except.ok (editedEntry ts sys dia pulse raw local_tz i) : Except String Entry))) L = [] := by
      intro L
      induction L with
      | nil => rfl
      | cons a L ih => simp only [List.filterMap_cons, ih]; rfl
    exact this _
  have hse : save_edit store (ts.map some) sys dia pulse raw local_tz =
      { store := List.insertionSort entryStrLe
          (pyDropLast10 (List.insertionSort entryStrLe (List.insertionSort entryLe store))
            ++ (List.range ts.length).map (editedEntry ts sys dia pulse raw local_tz)),
        backup := some store, status := "Data saved successfully." } := by
    simp only [save_edit]
    rw [if_neg (not_not_intro ⟨by simpa using hl1, hl2, hl3, hl4, hl5⟩)]
    rw [hrow, hek, herr]
    rw [if_neg (not_not_intro rfl)]
  rw [hse]
  refine ⟨rfl, List.sorted_insertionSort entryStrLe _, List.perm_insertionSort entryStrLe _, ?_⟩
  intro e he
  rw [(List.perm_insertionSort entryStrLe _).mem_iff]
  exact List.mem_append_left _ he

/-- Witness for C7: editing a one-row form over a two-record store. -/
theorem C7_save_edit_frame_witness :
    (save_edit [sample0919, sample2213] ([sampleNow].map some) [120] [80] [60] ["r"] ["Asia/Shanghai"]).backup = some [sample0919, sample2213]
    ∧ List.Sorted entryStrLe (save_edit [sample0919, sample2213] ([sampleNow].map some) [120] [80] [60] ["r"] ["Asia/Shanghai"]).store
    ∧ (save_edit [sample0919, sample2213] ([sampleNow].map some) [120] [80] [60] ["r"] ["Asia/Shanghai"]).store.Perm
        (pyDropLast10 (List.insertionSort entryStrLe (List.insertionSort entryLe [sample0919, sample2213]))
          ++ (List.range ([sampleNow] : List Timestamp).length).map
            (editedEntry [sampleNow] [120] [80] [60] ["r"] ["Asia/Shanghai"]))
    ∧ ∀ e ∈ pyDropLast10 (List.insertionSort entryStrLe (List.insertionSort entryLe [sample0919, sample2213])),
        e ∈ (save_edit [sample0919, sample2213] ([sampleNow].map some) [120] [80] [60] ["r"] ["Asia/Shanghai"]).store :=
  C7_save_edit_frame [sample0919, sample2213] [sampleNow] [120] [80] [60] ["r"]
    ["Asia/Shanghai"] rfl rfl rfl rfl rfl (by decide)

/-- A nonnegative in-range Python index reads the list element. -/
theorem pyGet_eq_get {l : List Int} {i : Int} (h0 : 0 ≤ i)
    (h1 : i.toNat < l.length) :
    pyGet l i = some (l.get ⟨i.toNat, h1⟩) := by
  unfold pyGet
  rw [if_neg (not_lt.mpr h0)]
  exact List.get?_eq_get h1

/-- Whatever `pyGet` returns is an element of the list. -/
theorem pyGet_some_mem {l : List Int} {i : Int} {a : Int}
    (h : pyGet l i = some a) : a ∈ l := by
  unfold pyGet at h
  split at h
  · split at h
    · exact Option.noConfusion h
    · exact List.get?_mem h
  · exact List.get?_mem h

/-- Python's `round` of a half-integer is monotone. -/
theorem pyRound2_mono {x y : Int} (h : x ≤ y) : pyRound2 x ≤ pyRound2 y := by
  unfold pyRound2
  split_ifs <;> omega

/-- Rounding `round(s / 2)` stays within any bounds containing `s / 2`. -/
theorem pyRound2_bounds {lo hi s : Int} (h1 : 2 * lo ≤ s) (h2 : s ≤ 2 * hi) :
    lo ≤ pyRound2 s ∧ pyRound2 s ≤ hi := by
  unfold pyRound2
  split_ifs <;> omega

/-- A successful `int()` comprehension keeps the token count. -/
theorem pyIntList_ok_length {toks : List String} {ns : List Int}
    (h : pyIntList toks = .ok ns) : ns.length = toks.length := by
  induction toks generalizing ns with
  | nil =>
    unfold pyIntList at h
    injection h with h
    subst h
    rfl
  | cons a toks ih =>
    unfold pyIntList at h
    split at h
    · exact Except.noConfusion h
    · split at h
      · exact Except.noConfusion h
      · injection h with h
        subst h
        rename_i hrest
        simp [ih hrest]

/-- When every triple validates, the validation loop returns normally. -/
theorem validateTriples_ok (sys dia pul : List Int) (n : Nat)
    (h : ∀ i < n,
      validate_values (sys.getD i 0) (dia.getD i 0) (pul.getD i 0) = .ok ()) :
    validateTriples sys dia pul n = .ok () := by
  induction n with
  | zero => rfl
  | succ m ih =>
    unfold validateTriples
    rw [ih (fun i hi => h i (Nat.lt_succ_of_lt hi))]
    rw [h m (Nat.lt_succ_self m)]
    rfl

/-- A defined median is returned, not raised. -/
theorem medianE_of_some {l : List Int} {v : Int}
    (h : compute_median_avg l = some v) : medianE l = .ok v := by
  unfold medianE
  rw [h]

/-- On a non-empty list the median is defined. -/
theorem compute_median_avg_ne_nil {l : List Int} (h : l ≠ []) :
    ∃ v, compute_median_avg l = some v := by
  unfold compute_median_avg
  have hlen : (List.insertionSort (fun a b : Int => a ≤ b) l).length = l.length :=
    (List.perm_insertionSort _ l).length_eq
  have hpos : 0 < (List.insertionSort (fun a b : Int => a ≤ b) l).length := by
    rw [hlen]
    exact List.length_pos.mpr h
  by_cases hpar : (List.insertionSort (fun a b : Int => a ≤ b) l).length % 2 = 0
  · rw [if_pos hpar]
    have h2 : 2 ≤ (List.insertionSort (fun a b : Int => a ≤ b) l).length := by omega
    have hb1 : (((List.insertionSort (fun a b : Int => a ≤ b) l).length : Int) / 2 - 1).toNat
        < (List.insertionSort (fun a b : Int => a ≤ b) l).length := by omega
    have hb2 : (((List.insertionSort (fun a b : Int => a ≤ b) l).length : Int) / 2).toNat
        < (List.insertionSort (fun a b : Int => a ≤ b) l).length := by omega
    rw [pyGet_eq_get (by omega) hb1, pyGet_eq_get (by omega) hb2]
    exact ⟨_, rfl⟩
  · rw [if_neg hpar]
    have hb : (((List.insertionSort (fun a b : Int => a ≤ b) l).length : Int) / 2).toNat
        < (List.insertionSort (fun a b : Int => a ≤ b) l).length := by omega
    rw [pyGet_eq_get (by omega) hb]
    exact ⟨_, rfl⟩

/-- In a sorted list, at most `j` elements are strictly below the element
at index `j`. -/
theorem countP_lt_of_sorted {l : List Int} (hs : List.Sorted (· ≤ ·) l)
    {j : Nat} (hj : j < l.length) :
    l.countP (fun x => decide (x < l.get ⟨j, hj⟩)) ≤ j := by
  have hdropc : l.drop j = l.get ⟨j, hj⟩ :: l.drop (j + 1) :=
    List.drop_eq_get_cons hj
  have hsd : List.Sorted (· ≤ ·) (l.drop j) :=
    List.Pairwise.sublist (List.drop_sublist j l) hs
  have hdrop : (l.drop j).countP (fun x => decide (x < l.get ⟨j, hj⟩)) = 0 := by
    rw [List.countP_eq_zero]
    intro a ha
    rw [hdropc] at ha
    rcases List.mem_cons.mp ha with h | h
    · subst h; simp
    · have hga : l.get ⟨j, hj⟩ ≤ a := by
        rw [hdropc] at hsd
        exact (List.sorted_cons.mp hsd).1 a h
      simp only [decide_eq_true_eq]
      exact not_lt.mpr hga
  calc l.countP (fun x => decide (x < l.get ⟨j, hj⟩))
      = (l.take j).countP (fun x => decide (x < l.get ⟨j, hj⟩))
        + (l.drop j).countP (fun x => decide (x < l.get ⟨j, hj⟩)) := by
        rw [← List.countP_append, List.take_append_drop]
    _ = (l.take j).countP (fun x => decide (x < l.get ⟨j, hj⟩)) := by
        rw [hdrop, Nat.add_zero]
    _ ≤ (l.take j).length := List.countP_le_length _
    _ ≤ j := by rw [List.length_take]; omega

/-- In a sorted list, an element bounding the count of strictly smaller
elements by `j` is at most the element at index `j`. -/
theorem le_get_of_countP_le {l : List Int} (hs : List.Sorted (· ≤ ·) l)
    {j : Nat} (hj : j < l.length) {v : Int}
    (hc : l.countP (fun x => decide (x < v)) ≤ j) :
    v ≤ l.get ⟨j, hj⟩ := by
  by_contra hlt
  push_neg at hlt
  have htake : ∀ a ∈ l.take (j + 1), (fun x => decide (x < v)) a = true := by
    intro a ha
    obtain ⟨⟨i, hi⟩, hget⟩ := List.mem_iff_get.mp ha
    have hij : i ≤ j := by
      have hcopy := hi
      rw [List.length_take] at hcopy
      omega
    have hil : i < l.length := by
      have hcopy := hi
      rw [List.length_take] at hcopy
      omega
    have hgeq : (l.take (j + 1)).get ⟨i, hi⟩ = l.get ⟨i, hil⟩ := by
      simp only [List.get_eq_getElem]
      exact List.getElem_take _
    have hle : l.get ⟨i, hil⟩ ≤ l.get ⟨j, hj⟩ := by
      rcases Nat.lt_or_ge i j with hlt2 | hge
      · have hpg := List.pairwise_iff_getElem.mp hs i j hil hj hlt2
        simpa only [List.get_eq_getElem] using hpg
      · have hieq : i = j := by omega
        subst hieq
        exact le_rfl
    simp only [decide_eq_true_eq]
    rw [← hget, hgeq]
    exact lt_of_le_of_lt hle hlt
  have hlen : (l.take (j + 1)).length = j + 1 := by
    rw [List.length_take]; omega
  have hcount : (l.take (j + 1)).countP (fun x => decide (x < v)) = j + 1 := by
    rw [List.countP_eq_length.mpr htake, hlen]
  have : j + 1 ≤ l.countP (fun x => decide (x < v)) := by
    conv_rhs => rw [← List.take_append_drop (j + 1) l]
    rw [List.countP_append, hcount]
    exact Nat.le_add_right _ _
  omega

/-- Pointwise domination lowers the count of strictly smaller elements. -/
theorem countP_le_of_forall₂ {d s : List Int}
    (h : List.Forall₂ (· ≤ ·) d s) (v : Int) :
    s.countP (fun x => decide (x < v)) ≤ d.countP (fun x => decide (x < v)) := by
  induction h with
  | nil => exact le_rfl
  | cons hab htl ih =>
    rename_i a b as bs
    rw [List.countP_cons, List.countP_cons]
    simp only [decide_eq_true_eq]
    by_cases hb : b < v
    · have ha : a < v := lt_of_le_of_lt hab hb
      rw [if_pos hb, if_pos ha]
      omega
    · rw [if_neg hb]
      split_ifs <;> omega

/-- Pointwise domination is preserved index by index after sorting: the
`j`-th order statistic of the dominated list is at most the `j`-th order
statistic of the dominating list. -/
theorem sorted_get_le_of_forall₂ {d s : List Int}
    (h : List.Forall₂ (· ≤ ·) d s) {j : Nat}
    (hjd : j < (List.insertionSort (fun a b : Int => a ≤ b) d).length)
    (hjs : j < (List.insertionSort (fun a b : Int => a ≤ b) s).length) :
    (List.insertionSort (fun a b : Int => a ≤ b) d).get ⟨j, hjd⟩
      ≤ (List.insertionSort (fun a b : Int => a ≤ b) s).get ⟨j, hjs⟩ := by
  have hsd : List.Sorted (· ≤ ·) (List.insertionSort (fun a b : Int => a ≤ b) d) :=
    List.sorted_insertionSort _ d
  have hss : List.Sorted (· ≤ ·) (List.insertionSort (fun a b : Int => a ≤ b) s) :=
    List.sorted_insertionSort _ s
  set v := (List.insertionSort (fun a b : Int => a ≤ b) d).get ⟨j, hjd⟩ with hv
  have h1 : (List.insertionSort (fun a b : Int => a ≤ b) d).countP
      (fun x => decide (x < v)) ≤ j := countP_lt_of_sorted hsd hjd
  have h2 : d.countP (fun x => decide (x < v))
      = (List.insertionSort (fun a b : Int => a ≤ b) d).countP
        (fun x => decide (x < v)) :=
    ((List.perm_insertionSort _ d).countP_eq _).symm
  have h3 : s.countP (fun x => decide (x < v)) ≤ d.countP (fun x => decide (x < v)) :=
    countP_le_of_forall₂ h v
  have h4 : (List.insertionSort (fun a b : Int => a ≤ b) s).countP
      (fun x => decide (x < v)) = s.countP (fun x => decide (x < v)) :=
    (List.perm_insertionSort _ s).countP_eq _
  exact le_get_of_countP_le hss hjs (by omega)

/-- The aggregated median stays within any bounds satisfied by every
value. -/
theorem compute_median_avg_bounds {l : List Int} {lo hi v : Int}
    (hb : ∀ x ∈ l, lo ≤ x ∧ x ≤ hi)
    (hv : compute_median_avg l = some v) : lo ≤ v ∧ v ≤ hi := by
  simp only [compute_median_avg] at hv
  have hmem : ∀ x ∈ List.insertionSort (fun a b : Int => a ≤ b) l,
      lo ≤ x ∧ x ≤ hi :=
    fun x hx => hb x ((List.perm_insertionSort _ l).subset hx)
  split at hv
  · split at hv
    · rename_i a b ha hb2
      injection hv with hv
      subst hv
      have hma := hmem a (pyGet_some_mem ha)
      have hmb := hmem b (pyGet_some_mem hb2)
      exact pyRound2_bounds (by omega) (by omega)
    · exact Option.noConfusion hv
  · exact hmem v (pyGet_some_mem hv)

/-- Component-wise domination carries over to the aggregated medians:
`compute_median_avg` is monotone under pointwise `≤`. -/
theorem compute_median_avg_le {d s : List Int}
    (h : List.Forall₂ (· ≤ ·) d s) {vd vs : Int}
    (hd : compute_median_avg d = some vd)
    (hs2 : compute_median_avg s = some vs) : vd ≤ vs := by
  have hlen : d.length = s.length := h.length_eq
  have hdne : d ≠ [] := by
    rintro rfl
    exact Option.noConfusion hd
  have hdpos : 0 < d.length := List.length_pos.mpr hdne
  have hld : (List.insertionSort (fun a b : Int => a ≤ b) d).length = d.length :=
    (List.perm_insertionSort _ d).length_eq
  have hls : (List.insertionSort (fun a b : Int => a ≤ b) s).length = s.length :=
    (List.perm_insertionSort _ s).length_eq
  simp only [compute_median_avg] at hd hs2
  by_cases hpar : (List.insertionSort (fun a b : Int => a ≤ b) d).length % 2 = 0
  · rw [if_pos hpar] at hd
    rw [if_pos (by omega : (List.insertionSort (fun a b : Int => a ≤ b) s).length % 2 = 0)] at hs2
    have hb1d : (((List.insertionSort (fun a b : Int => a ≤ b) d).length : Int) / 2 - 1).toNat
        < (List.insertionSort (fun a b : Int => a ≤ b) d).length := by omega
    have hb2d : (((List.insertionSort (fun a b : Int => a ≤ b) d).length : Int) / 2).toNat
        < (List.insertionSort (fun a b : Int => a ≤ b) d).length := by omega
    have hb1s : (((List.insertionSort (fun a b : Int => a ≤ b) s).length : Int) / 2 - 1).toNat
        < (List.insertionSort (fun a b : Int => a ≤ b) s).length := by omega
    have hb2s : (((List.insertionSort (fun a b : Int => a ≤ b) s).length : Int) / 2).toNat
        < (List.insertionSort (fun a b : Int => a ≤ b) s).length := by omega
    rw [pyGet_eq_get (by omega) hb1d, pyGet_eq_get (by omega) hb2d] at hd
    rw [pyGet_eq_get (by omega) hb1s, pyGet_eq_get (by omega) hb2s] at hs2
    injection hd with hd
    injection hs2 with hs2
    subst hd
    subst hs2
    have hj1 : (((List.insertionSort (fun a b : Int => a ≤ b) s).length : Int) / 2 - 1).toNat
        = (((List.insertionSort (fun a b : Int => a ≤ b) d).length : Int) / 2 - 1).toNat := by
      omega
    have hj2 : (((List.insertionSort (fun a b : Int => a ≤ b) s).length : Int) / 2).toNat
        = (((List.insertionSort (fun a b : Int => a ≤ b) d).length : Int) / 2).toNat := by
      omega
    simp only [hj1, hj2]
    have h1 := sorted_get_le_of_forall₂ h hb1d (hj1 ▸ hb1s)
    have h2 := sorted_get_le_of_forall₂ h hb2d (hj2 ▸ hb2s)
    exact pyRound2_mono (by omega)
  · rw [if_neg hpar] at hd
    rw [if_neg (by omega : ¬ (List.insertionSort (fun a b : Int => a ≤ b) s).length % 2 = 0)] at hs2
    have hbd : (((List.insertionSort (fun a b : Int => a ≤ b) d).length : Int) / 2).toNat
        < (List.insertionSort (fun a b : Int => a ≤ b) d).length := by omega
    have hbs : (((List.insertionSort (fun a b : Int => a ≤ b) s).length : Int) / 2).toNat
        < (List.insertionSort (fun a b : Int => a ≤ b) s).length := by omega
    rw [pyGet_eq_get (by omega) hbd] at hd
    rw [pyGet_eq_get (by omega) hbs] at hs2
    injection hd with hd
    injection hs2 with hs2
    subst hd
    subst hs2
    have hj : (((List.insertionSort (fun a b : Int => a ≤ b) s).length : Int) / 2).toNat
        = (((List.insertionSort (fun a b : Int => a ≤ b) d).length : Int) / 2).toNat := by
      omega
    simp only [hj]
    exact sorted_get_le_of_forall₂ h hbd (hj ▸ hbs)

/-- An in-range `getD` is a `get`. -/
theorem getD_eq_get {l : List Int} {i : Nat} (h : i < l.length) :
    l.getD i 0 = l.get ⟨i, h⟩ := by
  rw [List.getD_eq_getElem?_getD, List.getElem?_eq_getElem h]
  rfl

/-- C9: a line of `3k` whitespace-separated integers forming `k ≥ 1` valid
triples makes the `/add` handler append a single entry whose systolic,
diastolic and pulse are the component-wise `compute_median_avg` of the `k`
submitted values (middle value for odd `k`; Python-rounded average of the
two middle values for even `k`), and the aggregated triple itself passes
re-validation before being stored. -/
theorem C9_line_median_aggregation (store : List Entry) (now : Timestamp)
    (sb db pb : Option Int) (tz : Option String) (s : String) (k : Nat)
    (sys_list dia_list pulse_list : List Int)
    (hk : 1 ≤ k)
    (hne : s ≠ "")
    (hparts : (pySplit (pyStrip s)).length = 3 * k)
    (hsys : pyIntList ((List.range k).map
      (fun i => (pySplit (pyStrip s)).getD (i * 3) "")) = .ok sys_list)
    (hdia : pyIntList ((List.range k).map
      (fun i => (pySplit (pyStrip s)).getD (i * 3 + 1) "")) = .ok dia_list)
    (hpul : pyIntList ((List.range k).map
      (fun i => (pySplit (pyStrip s)).getD (i * 3 + 2) "")) = .ok pulse_list)
    (hval : ∀ i < k, validate_values (sys_list.getD i 0) (dia_list.getD i 0)
      (pulse_list.getD i 0) = .ok ()) :
    ∃ sv dv pv,
      compute_median_avg sys_list = some sv
      ∧ compute_median_avg dia_list = some dv
      ∧ compute_median_avg pulse_list = some pv
      ∧ validate_values sv dv pv = .ok ()
      ∧ add store { line := some s, sys_bp := sb, dia_bp := db, pulse := pb, local_tz := tz } now
          = .ok (store ++ [{ t := now, sys := sv, dia := dv, pulse := pv, raw := s, local_tz := tzName tz }], "Saved") := by
  have hsl : sys_list.length = k := by
    rw [pyIntList_ok_length hsys, List.length_map, List.length_range]
  have hdl : dia_list.length = k := by
    rw [pyIntList_ok_length hdia, List.length_map, List.length_range]
  have hpl : pulse_list.length = k := by
    rw [pyIntList_ok_length hpul, List.length_map, List.length_range]
  obtain ⟨sv, hsv⟩ := compute_median_avg_ne_nil
    (List.length_pos.mp (by omega) : sys_list ≠ [])
  obtain ⟨dv, hdv⟩ := compute_median_avg_ne_nil
    (List.length_pos.mp (by omega) : dia_list ≠ [])
  obtain ⟨pv, hpv⟩ := compute_median_avg_ne_nil
    (List.length_pos.mp (by omega) : pulse_list ≠ [])
  have hbs : ∀ x ∈ sys_list, SYS_MIN ≤ x ∧ x ≤ SYS_MAX := by
    intro x hx
    obtain ⟨⟨i, hi⟩, rfl⟩ := List.mem_iff_get.mp hx
    have hik : i < k := by omega
    have hvv := (validate_values_ok_iff _ _ _).mp (hval i hik)
    rw [getD_eq_get hi] at hvv
    exact ⟨hvv.1, hvv.2.1⟩
  have hbd : ∀ x ∈ dia_list, DIA_MIN ≤ x ∧ x ≤ DIA_MAX := by
    intro x hx
    obtain ⟨⟨i, hi⟩, rfl⟩ := List.mem_iff_get.mp hx
    have hik : i < k := by omega
    have hvv := (validate_values_ok_iff _ _ _).mp (hval i hik)
    rw [getD_eq_get hi] at hvv
    exact ⟨hvv.2.2.1, hvv.2.2.2.1⟩
  have hbp : ∀ x ∈ pulse_list, PUL_MIN ≤ x ∧ x ≤ PUL_MAX := by
    intro x hx
    obtain ⟨⟨i, hi⟩, rfl⟩ := List.mem_iff_get.mp hx
    have hik : i < k := by omega
    have hvv := (validate_values_ok_iff _ _ _).mp (hval i hik)
    rw [getD_eq_get hi] at hvv
    exact ⟨hvv.2.2.2.2.1, hvv.2.2.2.2.2.1⟩
  have hf2 : List.Forall₂ (· ≤ ·) dia_list sys_list := by
    rw [List.forall₂_iff_get]
    refine ⟨by omega, ?_⟩
    intro i h1 h2
    have hik : i < k := by omega
    have hvv := (validate_values_ok_iff _ _ _).mp (hval i hik)
    rw [getD_eq_get h2, getD_eq_get h1] at hvv
    exact hvv.2.2.2.2.2.2
  have hrs := compute_median_avg_bounds hbs hsv
  have hrd := compute_median_avg_bounds hbd hdv
  have hrp := compute_median_avg_bounds hbp hpv
  have hds : dv ≤ sv := compute_median_avg_le hf2 hdv hsv
  have hvv : validate_values sv dv pv = .ok () :=
    (validate_values_ok_iff _ _ _).mpr
      ⟨hrs.1, hrs.2, hrd.1, hrd.2, hrp.1, hrp.2, hds⟩
  refine ⟨sv, dv, pv, hsv, hdv, hpv, hvv, ?_⟩
  have htb : addTryBody
      { line := some s, sys_bp := sb, dia_bp := db, pulse := pb, local_tz := tz } now
      = .ok { t := now, sys := sv, dia := dv, pulse := pv, raw := s, local_tz := tzName tz } := by
    unfold addTryBody
    have hl : lineTruthy (some s) = true := by simp [lineTruthy, hne]
    rw [hl]
    simp only [if_true, Option.getD_some]
    simp only [addLine]
    rw [hparts]
    rw [if_neg (by omega : ¬ 3 * k % 3 ≠ 0)]
    rw [Nat.mul_div_cancel_left k (by norm_num : 0 < 3)]
    simp only [hsys, hdia, hpul, validateTriples_ok sys_list dia_list pulse_list k hval,
      medianE_of_some hsv, medianE_of_some hdv, medianE_of_some hpv, hvv]
  unfold add
  rw [htb]

/-- Witness for C9: the two-triple line `120 80 60 130 90 70` aggregates to
the medians `125 / 85 / 65`, which re-validate and are appended. -/
theorem C9_line_median_aggregation_witness :
    ∃ sv dv pv,
      compute_median_avg [120, 130] = some sv
      ∧ compute_median_avg [80, 90] = some dv
      ∧ compute_median_avg [60, 70] = some pv
      ∧ validate_values sv dv pv = .ok ()
      ∧ add [] { line := some ("120 80 60 130 90 70"), sys_bp := none, dia_bp := none, pulse := none, local_tz := none } sampleNow
          = .ok ([] ++ [{ t := sampleNow, sys := sv, dia := dv, pulse := pv, raw := "120 80 60 130 90 70", local_tz := tzName none }], "Saved") :=
  C9_line_median_aggregation [] sampleNow none none none none
    ("120 80 60 130 90 70") 2 [120, 130] [80, 90] [60, 70]
    (by decide) (by decide) (by decide) (by decide) (by decide) (by decide)
    (by decide)

end Pulse
